import Mathlib

/-!
Verification of the optimal-crop-resolution nodes.

The development shallowly embeds the two Python modules
`aspect_ratio_calculator.py` and `resolution_matcher.py`:

* machine integers are `ℕ`/`ℤ` (Python integers are unbounded);
* Python's real-valued division in the ratio comparisons is embedded
  twice: `calculate_dimensions_for_ratio` uses exact division in `ℚ`,
  which returns the same values as the program at every positive input
  (IEEE double division is correctly rounded, hence monotone in the
  exact quotient, and whenever the rounded guard disagrees with the
  exact one the two branches produce the same rectangle); and, for the
  question of which branch actually runs, `float64` models binary64
  round-to-nearest-even itself and
  `calculate_dimensions_for_ratio_fp` runs the guard on it — the two
  guards agree throughout the node's declared 1..8192 input range and
  are proved to disagree at 2^53-scale inputs;
* `list.sort(key=...)` followed by taking element 0 is embedded as
  `firstMinBy`, the first element attaining the minimal key, which is what
  a stable sort guarantees for index 0;
* Python string operations (`split`, `strip`, `in`, `int(...)`) are
  embedded as executable functions on `List Char`; `int(...)` is modelled
  as an optional-signed run of decimal digits surrounded by optional
  whitespace (numeric-literal underscores are not modelled);
* the `try/except` that wraps the whole parsing loop is embedded with
  `Option`: `none` means an exception escaped the loop, in which case the
  caller returns the empty list;
* the keyword-argument dictionaries holding the boolean checkbox flags
  are embedded as functions `String → Bool` (`kwargs.get(key, False)`).
-/

namespace CropRes

/-! ### Python-style string primitives -/

/-- Split a character list at every occurrence of `sep`, like Python's
`str.split(sep)` for a one-character separator: `n` separators produce
`n + 1` (possibly empty) fields. -/
def splitOnChar (sep : Char) : List Char → List (List Char)
  | [] => [[]]
  | c :: cs =>
    let r := splitOnChar sep cs
    if c = sep then [] :: r
    else
      match r with
      | [] => [[c]]
      | t :: ts => (c :: t) :: ts

/-- Whitespace characters removed by Python's `str.strip()` (the ASCII
ones; the inputs of interest contain at most spaces). -/
def pyIsSpace (c : Char) : Bool :=
  c = ' ' || c = '\t' || c = '\n' || c = '\r' || c = '\x0b' || c = '\x0c'

/-- Python's `str.strip()`: drop leading and trailing whitespace. -/
def pyStrip (cs : List Char) : List Char :=
  ((cs.dropWhile pyIsSpace).reverse.dropWhile pyIsSpace).reverse

/-- Numeric value of a run of decimal digits. -/
def digitsVal (cs : List Char) : ℕ :=
  cs.foldl (fun a c => a * 10 + (c.toNat - 48)) 0

/-- A nonempty run of decimal digits. -/
def allDigits (cs : List Char) : Bool :=
  !cs.isEmpty && cs.all Char.isDigit

/-- Python's `int(str)` in base 10: optional surrounding whitespace, an
optional sign, then at least one decimal digit; `none` models the
`ValueError` raised on any other shape. -/
def pyInt (cs0 : List Char) : Option ℤ :=
  let cs := pyStrip cs0
  match cs with
  | [] => none
  | c :: rest =>
    if c = '-' then
      if allDigits rest then some (-(digitsVal rest : ℤ)) else none
    else if c = '+' then
      if allDigits rest then some ((digitsVal rest : ℤ)) else none
    else
      if allDigits cs then some ((digitsVal cs : ℤ)) else none

/-! ### Catalog parsing

`AspectRatioCalculatorNode.parse_custom_ratios` and
`ResolutionMatcherNode.parse_custom_resolutions` are textually identical
up to the within-pair separator (`':'` versus `'x'`), so the loop body is
shared here.  In the source the `try` block encloses the whole `for`
loop, so an exception raised while parsing any single token unwinds the
entire loop; `parsePairs` returns `none` in that case and the caller
answers with the empty list. -/

/-- One pass of the parsing loop over the comma-separated tokens.
A token without the separator is skipped (`continue`); a token whose
sides do not both parse as integers, or which splits into more than two
fields, raises (`none`); a parsed pair is kept only when both sides are
strictly positive. -/
def parsePairs (sep : Char) : List (List Char) → Option (List (ℤ × ℤ))
  | [] => some []
  | t :: ts =>
    if t.contains sep then
      match splitOnChar sep (pyStrip t) with
      | [a, b] =>
        match pyInt a, pyInt b with
        | some w, some h =>
          (parsePairs sep ts).map fun rest =>
            if 0 < w ∧ 0 < h then (w, h) :: rest else rest
        | _, _ => none
      | _ => none
    else
      parsePairs sep ts

/-- The shared parsing helper: empty-after-strip input yields `[]`,
otherwise split on `','` and run the loop; an escaped exception is
answered with `[]` (after printing a warning, which has no observable
effect on the result).  The validated pairs are strictly positive, so
recording them as naturals is exact. -/
def parseRatioList (sep : Char) (s : String) : List (ℕ × ℕ) :=
  if pyStrip s.data = [] then []
  else
    match parsePairs sep (splitOnChar ',' s.data) with
    | some l => l.map fun p => (p.1.toNat, p.2.toNat)
    | none => []

/-- `AspectRatioCalculatorNode.parse_custom_ratios`: pairs are written
`"W:H"`. -/
def parse_custom_ratios (s : String) : List (ℕ × ℕ) :=
  parseRatioList ':' s

/-- `ResolutionMatcherNode.parse_custom_resolutions`: pairs are written
`"WxH"`. -/
def parse_custom_resolutions (s : String) : List (ℕ × ℕ) :=
  parseRatioList 'x' s

/-! ### CropFitter (`aspect_ratio_calculator.py`) -/

/-- The built-in ratio table `self.ratios`, in declaration order. -/
def ratios_table : List (String × (ℕ × ℕ)) :=
  [("use_1_1", (1, 1)), ("use_2_3", (2, 3)), ("use_3_2", (3, 2)),
   ("use_4_3", (4, 3)), ("use_3_4", (3, 4)), ("use_16_9", (16, 9)),
   ("use_9_16", (9, 16))]

/-- `AspectRatioCalculatorNode.get_enabled_ratios`: the flag-gated
built-ins in table order, followed by the parsed custom ratios. -/
def get_enabled_ratios (custom_ratios : String) (kwargs : String → Bool) :
    List (ℕ × ℕ) :=
  ((ratios_table.filter fun p => kwargs p.1).map Prod.snd)
    ++ parse_custom_ratios custom_ratios

/-- The inner helper `calculate_dimensions_for_ratio`: compare the real
ratios `w / h` and `ratio_w / ratio_h`; floor-fit whole ratio units along
the binding dimension, with a corrective fallback to the other dimension;
report `(new_width, new_height, pixel_loss)`. -/
def calculate_dimensions_for_ratio (w h ratio_w ratio_h : ℕ) : ℕ × ℕ × ℤ :=
  let current_r : ℚ := (w : ℚ) / (h : ℚ)
  let target_r : ℚ := (ratio_w : ℚ) / (ratio_h : ℚ)
  if current_r > target_r then
    let height_units := h / ratio_h
    let new_height := height_units * ratio_h
    let new_width := height_units * ratio_w
    if new_width > w then
      let width_units := w / ratio_w
      ((width_units * ratio_w : ℕ), (width_units * ratio_h : ℕ),
        (w * h : ℤ) - ((width_units * ratio_w) * (width_units * ratio_h) : ℕ))
    else
      (new_width, new_height, (w * h : ℤ) - (new_width * new_height : ℕ))
  else
    let width_units := w / ratio_w
    let new_width := width_units * ratio_w
    let new_height := width_units * ratio_h
    if new_height > h then
      let height_units := h / ratio_h
      ((height_units * ratio_w : ℕ), (height_units * ratio_h : ℕ),
        (w * h : ℤ) - ((height_units * ratio_w) * (height_units * ratio_h) : ℕ))
    else
      (new_width, new_height, (w * h : ℤ) - (new_width * new_height : ℕ))

/-- One entry of the `results` list built by `calculate`:
`(new_w, new_h, ratio[0], ratio[1], loss)`. -/
structure CandResult where
  new_w : ℕ
  new_h : ℕ
  ratio_w : ℕ
  ratio_h : ℕ
  loss : ℤ
  deriving DecidableEq, Repr

/-- Evaluate one catalog entry, as in the loop body of `calculate`. -/
def evalRatio (width height : ℕ) (p : ℕ × ℕ) : CandResult :=
  let d := calculate_dimensions_for_ratio width height p.1 p.2
  ⟨d.1, d.2.1, p.1, p.2, d.2.2⟩

/-- `results.sort(key=...)` with a stable sort followed by `results[0]`
returns the first element attaining the minimal key; `firstMinBy`
computes exactly that element. -/
def firstMinBy {α β : Type*} [LinearOrder β] (key : α → β) (a : α)
    (l : List α) : α :=
  l.foldl (fun best c => if key c < key best then c else best) a

/-- Lines 131–146 of `calculate`: given the merged catalog, fall back to
`(width, height, 1, 1)` when it is empty, otherwise evaluate every entry
and return the minimum-loss result, first in catalog order on ties. -/
def calculate_from_ratios (width height : ℕ) (enabled : List (ℕ × ℕ)) :
    ℕ × ℕ × ℕ × ℕ :=
  match enabled with
  | [] => (width, height, 1, 1)
  | r :: rest =>
    let best := firstMinBy CandResult.loss (evalRatio width height r)
      (rest.map (evalRatio width height))
    (best.new_w, best.new_h, best.ratio_w, best.ratio_h)

/-- `AspectRatioCalculatorNode.calculate`.  A forced ratio (both
components strictly positive; the node default is `-1`) bypasses the
catalog search and fits directly to the forced pair, which is therefore
returned unchanged (it is positive, so reading it back as a natural is
exact). -/
def calculate (width height : ℕ)
    (force_aspect_ratio_width force_aspect_ratio_height : ℤ)
    (custom_ratios : String) (kwargs : String → Bool) : ℕ × ℕ × ℕ × ℕ :=
  if 0 < force_aspect_ratio_width ∧ 0 < force_aspect_ratio_height then
    let fw := force_aspect_ratio_width.toNat
    let fh := force_aspect_ratio_height.toNat
    let d := calculate_dimensions_for_ratio width height fw fh
    (d.1, d.2.1, fw, fh)
  else
    calculate_from_ratios width height (get_enabled_ratios custom_ratios kwargs)

/-! ### ResolutionMatcher (`resolution_matcher.py`) -/

/-- The built-in resolution table `self.resolutions`, in declaration
order. -/
def resolutions_table : List (String × (ℕ × ℕ)) :=
  [("use_sd15_1:1_512x512", (512, 512)),
   ("use_sd1.5/sdxl_1:1_768x768", (768, 768)),
   ("use_sd15_3:2_768x512", (768, 512)),
   ("use_sd15_2:3_512x768", (512, 768)),
   ("use_sd15_4:3_768x576", (768, 576)),
   ("use_sd15_3:4_576x768", (576, 768)),
   ("use_sd15_16:9_912x512", (912, 512)),
   ("use_sd15_9:16_512x912", (512, 912)),
   ("use_sdxl_1:1_1024x1024", (1024, 1024)),
   ("use_sdxl_3:2_1152x768", (1152, 768)),
   ("use_sdxl_2:3_768x1152", (768, 1152)),
   ("use_sdxl_4:3_1152x864", (1152, 864)),
   ("use_sdxl_3:4_864x1152", (864, 1152)),
   ("use_sdxl_16:9_1360x768", (1360, 768)),
   ("use_sdxl_9:16_768x1360", (768, 1360)),
   ("use_flux_1:1_1408x1408", (1408, 1408)),
   ("use_flux_3:2_1728x1152", (1728, 1152)),
   ("use_flux_4:3_1664x1216", (1664, 1216)),
   ("use_flux_16:9_1920x1088", (1920, 1088)),
   ("use_flux_21:9_2176x960", (2176, 960))]

/-- `ResolutionMatcherNode.get_enabled_resolutions`. -/
def get_enabled_resolutions (custom_resolutions : String)
    (kwargs : String → Bool) : List (ℕ × ℕ) :=
  ((resolutions_table.filter fun p => kwargs p.1).map Prod.snd)
    ++ parse_custom_resolutions custom_resolutions

/-- The inner helper `calculate_aspect_ratio`: GCD-reduce a pair. -/
def calculate_aspect_ratio (w h : ℕ) : ℕ × ℕ :=
  let d := Nat.gcd w h
  (w / d, h / d)

/-- The inner helper `calculate_pixel_difference`: percentage difference
in total pixels, `abs(pixels2 - pixels1) / pixels1 * 100`. -/
def calculate_pixel_difference (w1 h1 w2 h2 : ℕ) : ℚ :=
  let pixels1 : ℚ := (w1 : ℚ) * (h1 : ℚ)
  let pixels2 : ℚ := (w2 : ℚ) * (h2 : ℚ)
  |pixels2 - pixels1| / pixels1 * 100

/-- The sort key of `match_resolution`:
`(pixel difference, -(width * height))`, compared lexicographically as
Python compares tuples. -/
def resolutionKey (width height : ℕ) (r : ℕ × ℕ) : Lex (ℚ × ℤ) :=
  toLex (calculate_pixel_difference width height r.1 r.2, -((r.1 * r.2 : ℕ) : ℤ))

/-- Lines 136–160 of `match_resolution`: given the merged catalog,
return the source when the catalog is empty, filter the catalog to the
entries whose reduced ratio equals the source's, return the source when
none match, and otherwise return the entry minimizing the sort key,
first in catalog order on ties. -/
def match_from_resolutions (width height : ℕ) (enabled : List (ℕ × ℕ)) :
    ℕ × ℕ :=
  let input_ratio := calculate_aspect_ratio width height
  match enabled with
  | [] => (width, height)
  | _ :: _ =>
    let matching := enabled.filter fun r =>
      calculate_aspect_ratio r.1 r.2 == input_ratio
    match matching with
    | [] => (width, height)
    | m :: rest =>
      let best := firstMinBy (resolutionKey width height) m rest
      (best.1, best.2)

/-- `ResolutionMatcherNode.match_resolution`. -/
def match_resolution (width height : ℕ) (custom_resolutions : String)
    (kwargs : String → Bool) : ℕ × ℕ :=
  match_from_resolutions width height
    (get_enabled_resolutions custom_resolutions kwargs)

/-! ### The double-precision branch guard

Python evaluates the guard `w / h > ratio_w / ratio_h` of
`calculate_dimensions_for_ratio` on IEEE binary64 doubles.  The exact-ℚ
guard above returns the same *values* as the program at every positive
input, but the question of which branch runs is decided by the doubles,
so the rounding itself is modelled here: `float64` is binary64
round-to-nearest-even for the nonnegative rationals the code divides
(significands rounded half-to-even to 53 bits at exponent
`Int.log 2 q`, clamped at `-1022` for gradual underflow), and `none`
models the `OverflowError` Python raises when an integer quotient
exceeds the largest finite double. -/

/-- Round a rational to the nearest integer, halves to the even
neighbour. -/
def roundHalfEven (x : ℚ) : ℤ :=
  if x - ⌊x⌋ < 1 / 2 then ⌊x⌋
  else if 1 / 2 < x - ⌊x⌋ then ⌊x⌋ + 1
  else if Even ⌊x⌋ then ⌊x⌋ else ⌊x⌋ + 1

/-- Binary64 round-to-nearest-even of a nonnegative rational; `none` is
overflow. -/
def float64 (q : ℚ) : Option ℚ :=
  if q = 0 then some 0
  else
    let e : ℤ := max (Int.log 2 q) (-1022)
    let m : ℤ := roundHalfEven (q * 2 ^ (52 - e))
    let r : ℚ := (m : ℚ) * 2 ^ (e - 52)
    if r < 2 ^ 1024 then some r else none

/-- Division of machine integers as Python evaluates it inside the
ratio comparison: the exact quotient, correctly rounded to binary64. -/
def fpDiv (a b : ℕ) : Option ℚ :=
  float64 ((a : ℚ) / (b : ℚ))

/-- `calculate_dimensions_for_ratio` with its branch guard evaluated on
binary64 doubles exactly as the source does (`none` propagates a float
overflow); the branch bodies are integer-exact in Python and unchanged
here. -/
def calculate_dimensions_for_ratio_fp (w h ratio_w ratio_h : ℕ) :
    Option (ℕ × ℕ × ℤ) :=
  match fpDiv w h, fpDiv ratio_w ratio_h with
  | some current_r, some target_r =>
    some (if current_r > target_r then
      let height_units := h / ratio_h
      let new_height := height_units * ratio_h
      let new_width := height_units * ratio_w
      if new_width > w then
        let width_units := w / ratio_w
        ((width_units * ratio_w : ℕ), (width_units * ratio_h : ℕ),
          (w * h : ℤ) - ((width_units * ratio_w) * (width_units * ratio_h) : ℕ))
      else
        (new_width, new_height, (w * h : ℤ) - (new_width * new_height : ℕ))
    else
      let width_units := w / ratio_w
      let new_width := width_units * ratio_w
      let new_height := width_units * ratio_h
      if new_height > h then
        let height_units := h / ratio_h
        ((height_units * ratio_w : ℕ), (height_units * ratio_h : ℕ),
          (w * h : ℤ) - ((height_units * ratio_w) * (height_units * ratio_h) : ℕ))
      else
        (new_width, new_height, (w * h : ℤ) - (new_width * new_height : ℕ)))
  | _, _ => none

end CropRes

namespace CropRes

/-! ### Selection lemmas: `firstMinBy` is the first minimum -/

theorem firstMinBy_cons {α β : Type*} [LinearOrder β] (key : α → β)
    (a c : α) (t : List α) :
    firstMinBy key a (c :: t) =
      firstMinBy key (if key c < key a then c else a) t := rfl

theorem firstMinBy_le {α β : Type*} [LinearOrder β] (key : α → β)
    (a : α) (l : List α) :
    ∀ x ∈ a :: l, key (firstMinBy key a l) ≤ key x := by
  induction l generalizing a with
  | nil =>
    intro x hx
    rcases List.mem_cons.mp hx with h | h
    · subst h; exact le_refl _
    · cases h
  | cons c t ih =>
    intro x hx
    rw [firstMinBy_cons]
    have hle : key (firstMinBy key (if key c < key a then c else a) t) ≤
        key (if key c < key a then c else a) :=
      ih _ _ (List.mem_cons_self _ _)
    have ha : key (if key c < key a then c else a) ≤ key a := by
      by_cases h : key c < key a
      · rw [if_pos h]; exact le_of_lt h
      · rw [if_neg h]
    have hc : key (if key c < key a then c else a) ≤ key c := by
      by_cases h : key c < key a
      · rw [if_pos h]
      · rw [if_neg h]; exact not_lt.mp h
    rcases List.mem_cons.mp hx with h | h
    · subst h; exact le_trans hle ha
    rcases List.mem_cons.mp h with h' | h'
    · subst h'; exact le_trans hle hc
    · exact ih _ x (List.mem_cons_of_mem _ h')

theorem firstMinBy_split {α β : Type*} [LinearOrder β] (key : α → β)
    (a : α) (l : List α) :
    ∃ l₁ l₂, a :: l = l₁ ++ firstMinBy key a l :: l₂ ∧
      ∀ x ∈ l₁, key (firstMinBy key a l) < key x := by
  induction l generalizing a with
  | nil => exact ⟨[], [], rfl, by simp⟩
  | cons c t ih =>
    rw [firstMinBy_cons]
    by_cases hc : key c < key a
    · rw [if_pos hc]
      obtain ⟨l₁, l₂, heq, hmin⟩ := ih c
      refine ⟨a :: l₁, l₂, ?_, ?_⟩
      · rw [List.cons_append, ← heq]
      · intro x hx
        rcases List.mem_cons.mp hx with h | h
        · subst h
          exact lt_of_le_of_lt (firstMinBy_le key c t c (List.mem_cons_self _ _)) hc
        · exact hmin x h
    · rw [if_neg hc]
      obtain ⟨l₁, l₂, heq, hmin⟩ := ih a
      cases l₁ with
      | nil =>
        simp only [List.nil_append] at heq
        have h1 : firstMinBy key a t = a := (List.cons.injEq _ _ _ _ ▸ heq).1.symm
        have h2 : l₂ = t := ((List.cons.injEq _ _ _ _).mp heq).2.symm
        exact ⟨[], c :: t, by rw [List.nil_append, h1], by simp⟩
      | cons b l₁' =>
        rw [List.cons_append] at heq
        have hb : b = a := ((List.cons.injEq _ _ _ _).mp heq).1.symm
        have ht : t = l₁' ++ firstMinBy key a t :: l₂ :=
          ((List.cons.injEq _ _ _ _).mp heq).2
        refine ⟨a :: c :: l₁', l₂, ?_, ?_⟩
        · rw [List.cons_append, List.cons_append, ← ht]
        · intro x hx
          have hfa : key (firstMinBy key a t) < key a := by
            have : a ∈ b :: l₁' := by rw [hb]; exact List.mem_cons_self _ _
            exact hmin a this
          rcases List.mem_cons.mp hx with h | h
          · subst h; exact hfa
          rcases List.mem_cons.mp h with h' | h'
          · subst h'; exact lt_of_lt_of_le hfa (not_lt.mp hc)
          · exact hmin x (List.mem_cons_of_mem _ h')

theorem firstMinBy_mem {α β : Type*} [LinearOrder β] (key : α → β)
    (a : α) (l : List α) : firstMinBy key a l ∈ a :: l := by
  obtain ⟨l₁, l₂, heq, _⟩ := firstMinBy_split key a l
  rw [heq]
  exact List.mem_append.mpr (Or.inr (List.mem_cons_self _ _))

theorem firstMinBy_map {α γ β : Type*} [LinearOrder β] (f : α → γ)
    (key : γ → β) (a : α) (l : List α) :
    firstMinBy key (f a) (l.map f) =
      f (firstMinBy (fun x => key (f x)) a l) := by
  induction l generalizing a with
  | nil => rfl
  | cons c t ih =>
    rw [List.map_cons, firstMinBy_cons,
      firstMinBy_cons (fun x => key (f x)) a c t, ← ih]
    congr 1
    exact (apply_ite f _ _ _).symm

/-! ### CropFitter arithmetic -/

theorem ratio_lt_iff (w h rw rh : ℕ) (hh : 0 < h) (hrh : 0 < rh) :
    ((rw : ℚ) / (rh : ℚ) < (w : ℚ) / (h : ℚ)) ↔ h * rw < w * rh := by
  rw [div_lt_div_iff (by exact_mod_cast hrh) (by exact_mod_cast hh)]
  rw [mul_comm ((rw : ℚ)) ((h : ℚ))]
  exact_mod_cast Iff.rfl

theorem tentative_width_lt (w h rw rh : ℕ) (hlt : h * rw < w * rh) :
    h / rh * rw < w := by
  have h1 : h / rh * rw * rh ≤ h * rw := by
    calc h / rh * rw * rh = h / rh * rh * rw := by ring
    _ ≤ h * rw := Nat.mul_le_mul_right _ (Nat.div_mul_le_self h rh)
  have h2 : rh * (h / rh * rw) < rh * w := by
    rw [mul_comm rh _, mul_comm rh w]
    exact lt_of_le_of_lt h1 hlt
  exact Nat.lt_of_mul_lt_mul_left h2

theorem tentative_height_le (w h rw rh : ℕ) (hrw : 0 < rw)
    (hle : w * rh ≤ h * rw) : w / rw * rh ≤ h := by
  have h1 : w / rw * rh * rw ≤ w * rh := by
    calc w / rw * rh * rw = w / rw * rw * rh := by ring
    _ ≤ w * rh := Nat.mul_le_mul_right _ (Nat.div_mul_le_self w rw)
  exact Nat.le_of_mul_le_mul_right (le_trans h1 hle) hrw

theorem calc_dims_eq (w h rw rh : ℕ) (hh : 0 < h) (hrw : 0 < rw)
    (hrh : 0 < rh) :
    calculate_dimensions_for_ratio w h rw rh =
      if h * rw < w * rh then
        (h / rh * rw, h / rh * rh,
          (w * h : ℤ) - ((h / rh * rw) * (h / rh * rh) : ℕ))
      else
        (w / rw * rw, w / rw * rh,
          (w * h : ℤ) - ((w / rw * rw) * (w / rw * rh) : ℕ)) := by
  simp only [calculate_dimensions_for_ratio, gt_iff_lt]
  by_cases hc : h * rw < w * rh
  · rw [if_pos ((ratio_lt_iff w h rw rh hh hrh).mpr hc), if_pos hc,
      if_neg (not_lt.mpr (le_of_lt (tentative_width_lt w h rw rh hc)))]
  · rw [if_neg (fun hq => hc ((ratio_lt_iff w h rw rh hh hrh).mp hq)),
      if_neg hc,
      if_neg (not_lt.mpr (tentative_height_le w h rw rh hrw (not_lt.mp hc)))]

theorem calc_dims_spec (w h rw rh : ℕ) (hh : 0 < h) (hrw : 0 < rw)
    (hrh : 0 < rh) :
    (calculate_dimensions_for_ratio w h rw rh).1 ≤ w ∧
    (calculate_dimensions_for_ratio w h rw rh).2.1 ≤ h ∧
    (∃ k, (calculate_dimensions_for_ratio w h rw rh).1 = k * rw ∧
          (calculate_dimensions_for_ratio w h rw rh).2.1 = k * rh) ∧
    (calculate_dimensions_for_ratio w h rw rh).2.2 =
      (w * h : ℤ) - ((calculate_dimensions_for_ratio w h rw rh).1 *
                     (calculate_dimensions_for_ratio w h rw rh).2.1 : ℕ) := by
  rw [calc_dims_eq w h rw rh hh hrw hrh]
  by_cases hc : h * rw < w * rh
  · rw [if_pos hc]
    exact ⟨le_of_lt (tentative_width_lt w h rw rh hc),
      Nat.div_mul_le_self h rh, ⟨h / rh, rfl, rfl⟩, rfl⟩
  · rw [if_neg hc]
    exact ⟨Nat.div_mul_le_self w rw,
      tentative_height_le w h rw rh hrw (not_lt.mp hc),
      ⟨w / rw, rfl, rfl⟩, rfl⟩

end CropRes

namespace CropRes

/-! ### Characterizing the CropFitter selection -/

theorem calculate_from_ratios_choice (w h : ℕ) (r0 : ℕ × ℕ)
    (rest : List (ℕ × ℕ)) :
    ∃ l₁ p l₂, r0 :: rest = l₁ ++ p :: l₂ ∧
      calculate_from_ratios w h (r0 :: rest) =
        ((evalRatio w h p).new_w, (evalRatio w h p).new_h,
          (evalRatio w h p).ratio_w, (evalRatio w h p).ratio_h) ∧
      (∀ q ∈ r0 :: rest, (evalRatio w h p).loss ≤ (evalRatio w h q).loss) ∧
      ∀ q ∈ l₁, (evalRatio w h p).loss < (evalRatio w h q).loss := by
  obtain ⟨l₁, l₂, heq, hmin⟩ :=
    firstMinBy_split (fun x => (evalRatio w h x).loss) r0 rest
  refine ⟨l₁, firstMinBy (fun x => (evalRatio w h x).loss) r0 rest, l₂,
    heq, ?_, ?_, hmin⟩
  · simp only [calculate_from_ratios]
    rw [firstMinBy_map (evalRatio w h) CandResult.loss r0 rest]
  · exact firstMinBy_le (fun x => (evalRatio w h x).loss) r0 rest

/-! ### Characterizing the ResolutionMatcher selection -/

theorem match_from_resolutions_cons (w h : ℕ) (e : ℕ × ℕ)
    (es : List (ℕ × ℕ)) :
    match_from_resolutions w h (e :: es) =
      match (e :: es).filter (fun r =>
          calculate_aspect_ratio r.1 r.2 == calculate_aspect_ratio w h) with
      | [] => (w, h)
      | m :: rest =>
        ((firstMinBy (resolutionKey w h) m rest).1,
         (firstMinBy (resolutionKey w h) m rest).2) := rfl

theorem match_from_resolutions_of_no_match (w h : ℕ)
    (enabled : List (ℕ × ℕ))
    (hM : enabled.filter (fun r =>
        calculate_aspect_ratio r.1 r.2 == calculate_aspect_ratio w h) = []) :
    match_from_resolutions w h enabled = (w, h) := by
  cases enabled with
  | nil => rfl
  | cons e es => rw [match_from_resolutions_cons, hM]

theorem match_from_resolutions_of_match (w h : ℕ) (enabled : List (ℕ × ℕ))
    (m : ℕ × ℕ) (rest : List (ℕ × ℕ))
    (hM : enabled.filter (fun r =>
        calculate_aspect_ratio r.1 r.2 == calculate_aspect_ratio w h) =
      m :: rest) :
    match_from_resolutions w h enabled = firstMinBy (resolutionKey w h) m rest ∧
    match_from_resolutions w h enabled ∈ enabled.filter (fun r =>
        calculate_aspect_ratio r.1 r.2 == calculate_aspect_ratio w h) ∧
    ∀ c ∈ enabled.filter (fun r =>
        calculate_aspect_ratio r.1 r.2 == calculate_aspect_ratio w h),
      resolutionKey w h (match_from_resolutions w h enabled) ≤
        resolutionKey w h c := by
  cases enabled with
  | nil => simp at hM
  | cons e es =>
    have hres : match_from_resolutions w h (e :: es) =
        firstMinBy (resolutionKey w h) m rest := by
      rw [match_from_resolutions_cons, hM]
    refine ⟨hres, ?_, ?_⟩
    · rw [hres, hM]
      exact firstMinBy_mem (resolutionKey w h) m rest
    · intro c hc
      rw [hres]
      rw [hM] at hc
      exact firstMinBy_le (resolutionKey w h) m rest c hc

theorem mem_matching_ratio_eq (w h : ℕ) (enabled : List (ℕ × ℕ))
    (c : ℕ × ℕ)
    (hc : c ∈ enabled.filter (fun r =>
        calculate_aspect_ratio r.1 r.2 == calculate_aspect_ratio w h)) :
    calculate_aspect_ratio c.1 c.2 = calculate_aspect_ratio w h := by
  have := List.of_mem_filter hc
  exact beq_iff_eq.mp this

/-! ### The pixel-difference key, translated to integers -/

theorem pixel_difference_cast (w h : ℕ) (c : ℕ × ℕ) :
    calculate_pixel_difference w h c.1 c.2 =
      ((|(c.1 * c.2 : ℤ) - (w * h : ℤ)| : ℤ) : ℚ) / ((w * h : ℕ) : ℚ) * 100 := by
  simp only [calculate_pixel_difference]
  rw [Int.cast_abs]
  push_cast
  ring_nf

theorem pixel_difference_lt_iff (w h : ℕ) (hwh : 0 < w * h) (a b : ℕ × ℕ) :
    calculate_pixel_difference w h a.1 a.2 <
        calculate_pixel_difference w h b.1 b.2 ↔
      |(a.1 * a.2 : ℤ) - (w * h : ℤ)| < |(b.1 * b.2 : ℤ) - (w * h : ℤ)| := by
  rw [pixel_difference_cast, pixel_difference_cast]
  have hp : (0 : ℚ) < ((w * h : ℕ) : ℚ) := by exact_mod_cast hwh
  rw [mul_lt_mul_right (by norm_num : (0:ℚ) < 100),
    div_lt_div_iff hp hp, mul_lt_mul_right hp, Int.cast_lt]

theorem pixel_difference_eq_iff (w h : ℕ) (hwh : 0 < w * h) (a b : ℕ × ℕ) :
    calculate_pixel_difference w h a.1 a.2 =
        calculate_pixel_difference w h b.1 b.2 ↔
      |(a.1 * a.2 : ℤ) - (w * h : ℤ)| = |(b.1 * b.2 : ℤ) - (w * h : ℤ)| := by
  constructor
  · intro H
    have hA : ¬ |(a.1 * a.2 : ℤ) - (w * h : ℤ)| <
        |(b.1 * b.2 : ℤ) - (w * h : ℤ)| := by
      rw [← pixel_difference_lt_iff w h hwh a b, H]
      exact lt_irrefl _
    have hB : ¬ |(b.1 * b.2 : ℤ) - (w * h : ℤ)| <
        |(a.1 * a.2 : ℤ) - (w * h : ℤ)| := by
      rw [← pixel_difference_lt_iff w h hwh b a, H]
      exact lt_irrefl _
    exact le_antisymm (not_lt.mp hB) (not_lt.mp hA)
  · intro H
    rw [pixel_difference_cast, pixel_difference_cast, H]

theorem resolutionKey_le_unpack (w h : ℕ) (a b : ℕ × ℕ)
    (hab : resolutionKey w h a ≤ resolutionKey w h b) :
    calculate_pixel_difference w h a.1 a.2 ≤
        calculate_pixel_difference w h b.1 b.2 ∧
    (calculate_pixel_difference w h a.1 a.2 =
        calculate_pixel_difference w h b.1 b.2 → b.1 * b.2 ≤ a.1 * a.2) := by
  have hu := (Prod.Lex.le_iff _ _).mp hab
  rcases hu with hlt | ⟨heq, hle⟩
  · exact ⟨le_of_lt hlt, fun He => absurd (He ▸ hlt) (lt_irrefl _)⟩
  · refine ⟨le_of_eq heq, fun _ => ?_⟩
    have : ((b.1 * b.2 : ℕ) : ℤ) ≤ ((a.1 * a.2 : ℕ) : ℤ) := by
      have := neg_le_neg_iff.mp hle
      exact_mod_cast this
    exact_mod_cast this

end CropRes

namespace CropRes

theorem eval_loss_lt_of_fits (w h : ℕ) (hh : 0 < h) (q : ℕ × ℕ)
    (hq1p : 0 < q.1) (hq2p : 0 < q.2) (hq1 : q.1 ≤ w) (hq2 : q.2 ≤ h) :
    (evalRatio w h q).loss < (w : ℤ) * (h : ℤ) := by
  dsimp only [evalRatio]
  rw [calc_dims_eq w h q.1 q.2 hh hq1p hq2p]
  by_cases hc : h * q.1 < w * q.2
  · rw [if_pos hc]
    have hk : 1 ≤ h / q.2 := (Nat.one_le_div_iff hq2p).mpr hq2
    have harea : 0 < h / q.2 * q.1 * (h / q.2 * q.2) :=
      Nat.mul_pos (Nat.mul_pos hk hq1p) (Nat.mul_pos hk hq2p)
    exact sub_lt_self _ (by exact_mod_cast harea)
  · rw [if_neg hc]
    have hk : 1 ≤ w / q.1 := (Nat.one_le_div_iff hq1p).mpr hq1
    have harea : 0 < w / q.1 * q.1 * (w / q.1 * q.2) :=
      Nat.mul_pos (Nat.mul_pos hk hq1p) (Nat.mul_pos hk hq2p)
    exact sub_lt_self _ (by exact_mod_cast harea)

/-- C1: for every source `(w, h)` with `w, h ≥ 1` and every non-empty
catalog of positive ratio pairs, the non-forced CropFitter result
satisfies: width ≤ `w`, height ≤ `h`, and there is a single unit count
`k` with width `= k *` returned ratio width and height `= k *` returned
ratio height (so each dimension is an exact integer multiple of its
ratio component, with the same multiple). -/
theorem cropFitter_unit_multiple_invariant (w h : ℕ) (rs : List (ℕ × ℕ))
    (hw : 0 < w) (hh : 0 < h) (hne : rs ≠ [])
    (hpos : ∀ p ∈ rs, 0 < p.1 ∧ 0 < p.2) :
    (calculate_from_ratios w h rs).1 ≤ w ∧
    (calculate_from_ratios w h rs).2.1 ≤ h ∧
    ∃ k, (calculate_from_ratios w h rs).1 =
          k * (calculate_from_ratios w h rs).2.2.1 ∧
         (calculate_from_ratios w h rs).2.1 =
          k * (calculate_from_ratios w h rs).2.2.2 := by
  cases rs with
  | nil => exact absurd rfl hne
  | cons r0 rest =>
    obtain ⟨l₁, p, l₂, heq, hres, hmin, hfirst⟩ :=
      calculate_from_ratios_choice w h r0 rest
    have hpmem : p ∈ r0 :: rest := by
      rw [heq]
      exact List.mem_append.mpr (Or.inr (List.mem_cons_self _ _))
    obtain ⟨hp1, hp2⟩ := hpos p hpmem
    have hs := calc_dims_spec w h p.1 p.2 hh hp1 hp2
    rw [hres]
    dsimp only [evalRatio]
    exact ⟨hs.1, hs.2.1, hs.2.2.1⟩

theorem cropFitter_unit_multiple_invariant_witness :
    (calculate_from_ratios 1024 1024 [(16, 9)]).1 ≤ 1024 ∧
    (calculate_from_ratios 1024 1024 [(16, 9)]).2.1 ≤ 1024 ∧
    ∃ k, (calculate_from_ratios 1024 1024 [(16, 9)]).1 =
          k * (calculate_from_ratios 1024 1024 [(16, 9)]).2.2.1 ∧
         (calculate_from_ratios 1024 1024 [(16, 9)]).2.1 =
          k * (calculate_from_ratios 1024 1024 [(16, 9)]).2.2.2 :=
  cropFitter_unit_multiple_invariant 1024 1024 [(16, 9)] (by norm_num)
    (by norm_num) (by decide) (by decide)

/-- C2: the non-forced CropFitter returns the evaluation of a catalog
entry `p` whose pixel loss is minimal over the whole catalog and
strictly smaller than the loss of every entry listed before `p` — the
behaviour of a stable sort keyed solely on loss followed by taking the
first element.  In particular for source `(1024, 1024)` and catalog
`[(1,1), (2,2)]` both entries have zero loss and the first one, `(1,1)`,
is returned. -/
theorem cropFitter_min_loss_first_in_order (w h : ℕ) (rs : List (ℕ × ℕ))
    (hne : rs ≠ []) :
    (∃ l₁ p l₂, rs = l₁ ++ p :: l₂ ∧
      calculate_from_ratios w h rs =
        ((evalRatio w h p).new_w, (evalRatio w h p).new_h,
          (evalRatio w h p).ratio_w, (evalRatio w h p).ratio_h) ∧
      (∀ q ∈ rs, (evalRatio w h p).loss ≤ (evalRatio w h q).loss) ∧
      ∀ q ∈ l₁, (evalRatio w h p).loss < (evalRatio w h q).loss) ∧
    calculate_from_ratios 1024 1024 [(1, 1), (2, 2)] = (1024, 1024, 1, 1) := by
  constructor
  · cases rs with
    | nil => exact absurd rfl hne
    | cons r0 rest => exact calculate_from_ratios_choice w h r0 rest
  · have he1 : evalRatio 1024 1024 (1, 1) = ⟨1024, 1024, 1, 1, 0⟩ := by
      dsimp only [evalRatio]
      rw [calc_dims_eq 1024 1024 1 1 (by norm_num) (by norm_num) (by norm_num)]
      decide
    have he2 : evalRatio 1024 1024 (2, 2) = ⟨1024, 1024, 2, 2, 0⟩ := by
      dsimp only [evalRatio]
      rw [calc_dims_eq 1024 1024 2 2 (by norm_num) (by norm_num) (by norm_num)]
      decide
    simp only [calculate_from_ratios, List.map_cons, List.map_nil]
    rw [he1, he2]
    decide

theorem cropFitter_min_loss_first_in_order_witness :
    (∃ l₁ p l₂, [((7 : ℕ), (5 : ℕ))] = l₁ ++ p :: l₂ ∧
      calculate_from_ratios 300 200 [(7, 5)] =
        ((evalRatio 300 200 p).new_w, (evalRatio 300 200 p).new_h,
          (evalRatio 300 200 p).ratio_w, (evalRatio 300 200 p).ratio_h) ∧
      (∀ q ∈ [((7 : ℕ), (5 : ℕ))],
        (evalRatio 300 200 p).loss ≤ (evalRatio 300 200 q).loss) ∧
      ∀ q ∈ l₁, (evalRatio 300 200 p).loss < (evalRatio 300 200 q).loss) ∧
    calculate_from_ratios 1024 1024 [(1, 1), (2, 2)] = (1024, 1024, 1, 1) :=
  cropFitter_min_loss_first_in_order 300 200 [(7, 5)] (by decide)

/-- C7: the non-forced CropFitter never needs a zero divisor (all catalog
components are positive), and whenever some catalog entry fits at least
one whole ratio unit inside the source, both returned dimensions are
strictly positive.  When no entry fits, the zero-dimension result is
returned as computed: for source `(1, 1)` and catalog `[(2, 3)]` the
result is `(0, 0, 2, 3)`. -/
theorem cropFitter_positive_when_unit_fits (w h : ℕ) (rs : List (ℕ × ℕ))
    (hw : 0 < w) (hh : 0 < h)
    (hpos : ∀ p ∈ rs, 0 < p.1 ∧ 0 < p.2)
    (hfit : ∃ p ∈ rs, p.1 ≤ w ∧ p.2 ≤ h) :
    (0 < (calculate_from_ratios w h rs).1 ∧
     0 < (calculate_from_ratios w h rs).2.1) ∧
    calculate_from_ratios 1 1 [(2, 3)] = (0, 0, 2, 3) := by
  constructor
  · cases rs with
    | nil =>
      obtain ⟨p, hp, _⟩ := hfit
      cases hp
    | cons r0 rest =>
      obtain ⟨l₁, p, l₂, heq, hres, hmin, _⟩ :=
        calculate_from_ratios_choice w h r0 rest
      obtain ⟨q, hq, hq1, hq2⟩ := hfit
      obtain ⟨hq1p, hq2p⟩ := hpos q hq
      have hqlt := eval_loss_lt_of_fits w h hh q hq1p hq2p hq1 hq2
      have hpmem : p ∈ r0 :: rest := by
        rw [heq]
        exact List.mem_append.mpr (Or.inr (List.mem_cons_self _ _))
      obtain ⟨hp1, hp2⟩ := hpos p hpmem
      have hs := calc_dims_spec w h p.1 p.2 hh hp1 hp2
      have hl : (evalRatio w h p).loss = (w : ℤ) * (h : ℤ) -
          ((evalRatio w h p).new_w * (evalRatio w h p).new_h : ℕ) := by
        dsimp only [evalRatio]
        exact hs.2.2.2
      have h1 : (evalRatio w h p).loss < (w : ℤ) * (h : ℤ) :=
        lt_of_le_of_lt (hmin q hq) hqlt
      rw [hl] at h1
      have harea : 0 < (evalRatio w h p).new_w * (evalRatio w h p).new_h := by
        have : (0 : ℤ) <
            ((evalRatio w h p).new_w * (evalRatio w h p).new_h : ℕ) := by
          linarith
        exact_mod_cast this
      have hposs : 0 < (evalRatio w h p).new_w ∧
          0 < (evalRatio w h p).new_h := by
        constructor
        · rcases Nat.eq_zero_or_pos (evalRatio w h p).new_w with hz | hz
          · rw [hz, zero_mul] at harea
            exact absurd harea (lt_irrefl 0)
          · exact hz
        · rcases Nat.eq_zero_or_pos (evalRatio w h p).new_h with hz | hz
          · rw [hz, mul_zero] at harea
            exact absurd harea (lt_irrefl 0)
          · exact hz
      rw [hres]
      exact hposs
  · have he : evalRatio 1 1 (2, 3) = ⟨0, 0, 2, 3, 1⟩ := by
      dsimp only [evalRatio]
      rw [calc_dims_eq 1 1 2 3 (by norm_num) (by norm_num) (by norm_num)]
      decide
    simp only [calculate_from_ratios, List.map_nil]
    rw [he]
    decide

theorem cropFitter_positive_when_unit_fits_witness :
    (0 < (calculate_from_ratios 100 100 [(16, 9)]).1 ∧
     0 < (calculate_from_ratios 100 100 [(16, 9)]).2.1) ∧
    calculate_from_ratios 1 1 [(2, 3)] = (0, 0, 2, 3) :=
  cropFitter_positive_when_unit_fits 100 100 [(16, 9)] (by norm_num)
    (by norm_num) (by decide) (by decide)

end CropRes

namespace CropRes

/-- C3 counterexample: the claim says an exception while parsing the
token `"a:b"` (separator present, non-integer sides) skips only that
token, so `"21:9,a:b,32:9"` would yield `[(21, 9), (32, 9)]`.  In the
source the `try` wraps the whole loop, so the exception aborts the
entire parse and the function returns `[]`. -/
theorem parse_per_token_exception_counterexample :
    parse_custom_ratios "21:9,a:b,32:9" = [] ∧
    parse_custom_ratios "21:9,a:b,32:9" ≠ [(21, 9), (32, 9)] :=
  ⟨by decide, by decide⟩

/-- C3 (amended): a token lacking the within-pair separator is skipped
individually, and so is a well-formed pair with a non-positive side;
but an exception raised while parsing one token (non-integer side with
the separator present) aborts the whole parse and returns `[]`.  The
claimed example still holds: `"21:9,bad,32:9,-1:5,0:0"` parses to
exactly `[(21, 9), (32, 9)]`, and likewise for the `'x'`-separated
resolution parser. -/
theorem parse_skip_tokens_but_abort_on_exception (t : List Char)
    (ts : List (List Char)) (hskip : t.contains ':' = false) :
    parsePairs ':' (t :: ts) = parsePairs ':' ts ∧
    parse_custom_ratios "21:9,bad,32:9,-1:5,0:0" = [(21, 9), (32, 9)] ∧
    parse_custom_resolutions "21x9,bad,32x9,-1x5,0x0" = [(21, 9), (32, 9)] ∧
    parse_custom_ratios "21:9,a:b,32:9" = [] := by
  refine ⟨?_, by decide, by decide, by decide⟩
  simp only [parsePairs, hskip, Bool.false_eq_true, if_false]

theorem parse_skip_tokens_but_abort_on_exception_witness :
    parsePairs ':' ["bad".data, "32:9".data] = parsePairs ':' ["32:9".data] :=
  (parse_skip_tokens_but_abort_on_exception "bad".data ["32:9".data]
    (by decide)).1

/-- C4 counterexample: the claim predicts that the forced path behaves
as a proportional rescale, returning height `h` unchanged and width
`floor(h * rw / rh)`; at source `(4000, 1000)` with forced ratio
`(16, 9)` that would be `(1777, 1000)` (`1777 = ⌊1000 * 16 / 9⌋`).  The
code instead unit-crops to `(1776, 999)`. -/
theorem forced_proportional_rescale_counterexample :
    calculate 4000 1000 16 9 "" (fun _ => false) = (1776, 999, 16, 9) ∧
    (calculate 4000 1000 16 9 "" (fun _ => false)).2.1 ≠ 1000 ∧
    (calculate 4000 1000 16 9 "" (fun _ => false)).1 ≠ 1777 := by
  have h1 : calculate 4000 1000 16 9 "" (fun _ => false) =
      (1776, 999, 16, 9) := by
    simp only [calculate]
    rw [if_pos (by decide : (0 : ℤ) < 16 ∧ (0 : ℤ) < 9)]
    rw [show ((16 : ℤ).toNat) = 16 from rfl, show ((9 : ℤ).toNat) = 9 from rfl]
    rw [calc_dims_eq 4000 1000 16 9 (by norm_num) (by norm_num) (by norm_num)]
    decide
  exact ⟨h1, by rw [h1]; decide, by rw [h1]; decide⟩

/-- C4 (amended): the forced path of `calculate` applies the same
unit-based crop as the non-forced candidate evaluation: when the source
is proportionally wider than the forced ratio the height is floored to a
whole multiple of `rh` and the width is the matching multiple of `rw`,
otherwise the width is floored to a whole multiple of `rw`; the returned
dimensions are therefore exact integer multiples of the forced ratio
components with a common unit count (not an `h`-unchanged proportional
rescale). -/
theorem forced_ratio_is_unit_crop (w h rw rh : ℕ) (hw : 0 < w) (hh : 0 < h)
    (hrw : 0 < rw) (hrh : 0 < rh) (custom : String) (kwargs : String → Bool) :
    calculate w h (rw : ℤ) (rh : ℤ) custom kwargs =
      (if (w : ℚ) / (h : ℚ) > (rw : ℚ) / (rh : ℚ) then
        (h / rh * rw, h / rh * rh, rw, rh)
      else
        (w / rw * rw, w / rw * rh, rw, rh)) ∧
    ∃ k, (calculate w h (rw : ℤ) (rh : ℤ) custom kwargs).1 = k * rw ∧
         (calculate w h (rw : ℤ) (rh : ℤ) custom kwargs).2.1 = k * rh := by
  have hcond : 0 < (rw : ℤ) ∧ 0 < (rh : ℤ) :=
    ⟨by exact_mod_cast hrw, by exact_mod_cast hrh⟩
  have hcalc : calculate w h (rw : ℤ) (rh : ℤ) custom kwargs =
      ((calculate_dimensions_for_ratio w h rw rh).1,
       (calculate_dimensions_for_ratio w h rw rh).2.1, rw, rh) := by
    simp only [calculate, Int.toNat_natCast]
    rw [if_pos hcond]
  constructor
  · rw [hcalc, calc_dims_eq w h rw rh hh hrw hrh]
    by_cases hc : h * rw < w * rh
    · rw [if_pos hc, if_pos ((ratio_lt_iff w h rw rh hh hrh).mpr hc)]
    · rw [if_neg hc,
        if_neg (fun hq => hc ((ratio_lt_iff w h rw rh hh hrh).mp hq))]
  · rw [hcalc]
    exact (calc_dims_spec w h rw rh hh hrw hrh).2.2.1

theorem forced_ratio_is_unit_crop_witness :
    calculate 1000 900 ((1 : ℕ) : ℤ) ((1 : ℕ) : ℤ) "" (fun _ => false) =
      (if (1000 : ℚ) / (900 : ℚ) > ((1 : ℕ) : ℚ) / ((1 : ℕ) : ℚ) then
        (900 / 1 * 1, 900 / 1 * 1, 1, 1)
      else
        (1000 / 1 * 1, 1000 / 1 * 1, 1, 1)) ∧
    ∃ k, (calculate 1000 900 ((1 : ℕ) : ℤ) ((1 : ℕ) : ℤ) "" (fun _ => false)).1 =
          k * 1 ∧
         (calculate 1000 900 ((1 : ℕ) : ℤ) ((1 : ℕ) : ℤ) "" (fun _ => false)).2.1 =
          k * 1 :=
  forced_ratio_is_unit_crop 1000 900 1 1 (by norm_num) (by norm_num)
    (by norm_num) (by norm_num) "" (fun _ => false)

end CropRes

namespace CropRes

/-- C5: `match_resolution` considers exactly the candidates whose
GCD-reduced pair equals the reduced source pair: every candidate passing
the filter has that reduced ratio, the result lies in the filtered list
whenever it is nonempty, and when it is empty the source is returned
unchanged.  In particular for source `(1920, 1080)` and candidates
`[(1280, 720), (1024, 768)]` only `(1280, 720)` is eligible and it is
returned. -/
theorem resolutionMatcher_exact_ratio_filter (w h : ℕ)
    (enabled : List (ℕ × ℕ)) (hw : 0 < w) (hh : 0 < h) :
    (enabled.filter (fun r =>
        calculate_aspect_ratio r.1 r.2 == calculate_aspect_ratio w h) = [] →
      match_from_resolutions w h enabled = (w, h)) ∧
    (∀ c ∈ enabled.filter (fun r =>
        calculate_aspect_ratio r.1 r.2 == calculate_aspect_ratio w h),
      calculate_aspect_ratio c.1 c.2 = calculate_aspect_ratio w h) ∧
    (enabled.filter (fun r =>
        calculate_aspect_ratio r.1 r.2 == calculate_aspect_ratio w h) ≠ [] →
      match_from_resolutions w h enabled ∈ enabled.filter (fun r =>
        calculate_aspect_ratio r.1 r.2 == calculate_aspect_ratio w h)) ∧
    match_from_resolutions 1920 1080 [(1280, 720), (1024, 768)] =
      (1280, 720) := by
  refine ⟨match_from_resolutions_of_no_match w h enabled,
    fun c hc => mem_matching_ratio_eq w h enabled c hc, ?_, ?_⟩
  · intro hne
    rcases hfil : enabled.filter (fun r =>
        calculate_aspect_ratio r.1 r.2 == calculate_aspect_ratio w h) with
      _ | ⟨m, rest⟩
    · exact absurd hfil hne
    · exact (match_from_resolutions_of_match w h enabled m rest hfil).2.1
  · have hfil : ([((1280 : ℕ), (720 : ℕ)), (1024, 768)]).filter (fun r =>
        calculate_aspect_ratio r.1 r.2 == calculate_aspect_ratio 1920 1080) =
        [(1280, 720)] := by decide
    obtain ⟨he, _, _⟩ := match_from_resolutions_of_match 1920 1080
      [(1280, 720), (1024, 768)] (1280, 720) [] hfil
    rw [he]
    rfl

theorem resolutionMatcher_exact_ratio_filter_witness :
    (([((1280 : ℕ), (720 : ℕ)), (1024, 768)]).filter (fun r =>
        calculate_aspect_ratio r.1 r.2 == calculate_aspect_ratio 1920 1080) =
          [] →
      match_from_resolutions 1920 1080 [(1280, 720), (1024, 768)] =
        (1920, 1080)) ∧
    (∀ c ∈ ([((1280 : ℕ), (720 : ℕ)), (1024, 768)]).filter (fun r =>
        calculate_aspect_ratio r.1 r.2 == calculate_aspect_ratio 1920 1080),
      calculate_aspect_ratio c.1 c.2 = calculate_aspect_ratio 1920 1080) ∧
    (([((1280 : ℕ), (720 : ℕ)), (1024, 768)]).filter (fun r =>
        calculate_aspect_ratio r.1 r.2 == calculate_aspect_ratio 1920 1080) ≠
          [] →
      match_from_resolutions 1920 1080 [(1280, 720), (1024, 768)] ∈
        ([((1280 : ℕ), (720 : ℕ)), (1024, 768)]).filter (fun r =>
          calculate_aspect_ratio r.1 r.2 == calculate_aspect_ratio 1920 1080)) ∧
    match_from_resolutions 1920 1080 [(1280, 720), (1024, 768)] =
      (1280, 720) :=
  resolutionMatcher_exact_ratio_filter 1920 1080 [(1280, 720), (1024, 768)]
    (by norm_num) (by norm_num)

/-- C6: among the candidates passing the exact-ratio filter, the result
minimizes the percentage pixel difference, and whenever another matching
candidate has exactly the same percentage difference, its raw pixel
count does not exceed the result's (the larger pixel count wins a tie).
On the concrete tie `(20, 20)` versus `(140, 140)` for source
`(100, 100)` — both are 96% away — the larger `(140, 140)` is returned
from either catalog order. -/
theorem resolutionMatcher_tie_prefers_larger (w h : ℕ)
    (enabled : List (ℕ × ℕ)) (hw : 0 < w) (hh : 0 < h) (m : ℕ × ℕ)
    (rest : List (ℕ × ℕ))
    (hM : enabled.filter (fun r =>
        calculate_aspect_ratio r.1 r.2 == calculate_aspect_ratio w h) =
      m :: rest) :
    (∀ c ∈ enabled.filter (fun r =>
        calculate_aspect_ratio r.1 r.2 == calculate_aspect_ratio w h),
      calculate_pixel_difference w h (match_from_resolutions w h enabled).1
          (match_from_resolutions w h enabled).2 ≤
        calculate_pixel_difference w h c.1 c.2 ∧
      (calculate_pixel_difference w h (match_from_resolutions w h enabled).1
          (match_from_resolutions w h enabled).2 =
        calculate_pixel_difference w h c.1 c.2 →
        c.1 * c.2 ≤ (match_from_resolutions w h enabled).1 *
          (match_from_resolutions w h enabled).2)) ∧
    match_from_resolutions 100 100 [(20, 20), (140, 140)] = (140, 140) ∧
    match_from_resolutions 100 100 [(140, 140), (20, 20)] = (140, 140) := by
  have hwh : 0 < (100 : ℕ) * 100 := by norm_num
  have hpeq : calculate_pixel_difference 100 100 140 140 =
      calculate_pixel_difference 100 100 20 20 := by
    have := (pixel_difference_eq_iff 100 100 hwh (140, 140) (20, 20)).mpr
      (by decide)
    exact this
  have hk1 : resolutionKey 100 100 (140, 140) < resolutionKey 100 100 (20, 20) := by
    dsimp only [resolutionKey]
    exact (Prod.Lex.lt_iff _ _).mpr (Or.inr ⟨hpeq, by norm_num⟩)
  have hk2 : ¬ resolutionKey 100 100 (20, 20) < resolutionKey 100 100 (140, 140) := by
    dsimp only [resolutionKey]
    intro hlt
    rcases (Prod.Lex.lt_iff _ _).mp hlt with h1 | ⟨_, h2⟩
    · have := (pixel_difference_lt_iff 100 100 hwh (20, 20) (140, 140)).mp h1
      exact absurd this (by decide)
    · norm_num at h2
  refine ⟨?_, ?_, ?_⟩
  · obtain ⟨_, _, hmin⟩ := match_from_resolutions_of_match w h enabled m rest hM
    exact fun c hc => resolutionKey_le_unpack w h _ c (hmin c hc)
  · have hfil : ([((20 : ℕ), (20 : ℕ)), (140, 140)]).filter (fun r =>
        calculate_aspect_ratio r.1 r.2 == calculate_aspect_ratio 100 100) =
        [(20, 20), (140, 140)] := by decide
    obtain ⟨he, _, _⟩ := match_from_resolutions_of_match 100 100
      [(20, 20), (140, 140)] (20, 20) [(140, 140)] hfil
    rw [he]
    simp only [firstMinBy, List.foldl_cons, List.foldl_nil]
    rw [if_pos hk1]
  · have hfil : ([((140 : ℕ), (140 : ℕ)), (20, 20)]).filter (fun r =>
        calculate_aspect_ratio r.1 r.2 == calculate_aspect_ratio 100 100) =
        [(140, 140), (20, 20)] := by decide
    obtain ⟨he, _, _⟩ := match_from_resolutions_of_match 100 100
      [(140, 140), (20, 20)] (140, 140) [(20, 20)] hfil
    rw [he]
    simp only [firstMinBy, List.foldl_cons, List.foldl_nil]
    rw [if_neg hk2]

theorem resolutionMatcher_tie_prefers_larger_witness :
    (∀ c ∈ ([((1280 : ℕ), (720 : ℕ)), (1024, 768)]).filter (fun r =>
        calculate_aspect_ratio r.1 r.2 == calculate_aspect_ratio 1920 1080),
      calculate_pixel_difference 1920 1080
          (match_from_resolutions 1920 1080 [(1280, 720), (1024, 768)]).1
          (match_from_resolutions 1920 1080 [(1280, 720), (1024, 768)]).2 ≤
        calculate_pixel_difference 1920 1080 c.1 c.2 ∧
      (calculate_pixel_difference 1920 1080
          (match_from_resolutions 1920 1080 [(1280, 720), (1024, 768)]).1
          (match_from_resolutions 1920 1080 [(1280, 720), (1024, 768)]).2 =
        calculate_pixel_difference 1920 1080 c.1 c.2 →
        c.1 * c.2 ≤
          (match_from_resolutions 1920 1080 [(1280, 720), (1024, 768)]).1 *
          (match_from_resolutions 1920 1080 [(1280, 720), (1024, 768)]).2)) ∧
    match_from_resolutions 100 100 [(20, 20), (140, 140)] = (140, 140) ∧
    match_from_resolutions 100 100 [(140, 140), (20, 20)] = (140, 140) :=
  resolutionMatcher_tie_prefers_larger 1920 1080 [(1280, 720), (1024, 768)]
    (by norm_num) (by norm_num) (1280, 720) [] (by decide)

end CropRes

namespace CropRes

theorem map_filter_false {α β : Type*} (f : α → β) (g : α → Bool)
    (l : List α) (hg : ∀ x, g x = false) :
    (l.filter g).map f = [] := by
  rw [List.filter_eq_nil_iff.mpr fun a _ => by rw [hg a]; exact Bool.false_ne_true]
  rfl

/-- C8: with no forced override, no enabled checkbox flag, and a custom
string whose parse yields no pair, `calculate` returns
`(width, height, 1, 1)` and `match_resolution` returns
`(width, height)`. -/
theorem empty_catalog_fallback (w h : ℕ) (fw fh : ℤ) (c1 c2 : String)
    (kw1 kw2 : String → Bool) (hforce : ¬(0 < fw ∧ 0 < fh))
    (hk1 : ∀ s, kw1 s = false) (hk2 : ∀ s, kw2 s = false)
    (hc1 : parse_custom_ratios c1 = [])
    (hc2 : parse_custom_resolutions c2 = []) :
    calculate w h fw fh c1 kw1 = (w, h, 1, 1) ∧
    match_resolution w h c2 kw2 = (w, h) := by
  have he1 : get_enabled_ratios c1 kw1 = [] := by
    simp only [get_enabled_ratios, hc1, List.append_nil]
    exact map_filter_false _ _ _ fun p => hk1 p.1
  have he2 : get_enabled_resolutions c2 kw2 = [] := by
    simp only [get_enabled_resolutions, hc2, List.append_nil]
    exact map_filter_false _ _ _ fun p => hk2 p.1
  constructor
  · simp only [calculate, if_neg hforce, he1]
    rfl
  · simp only [match_resolution, he2]
    rfl

theorem empty_catalog_fallback_witness :
    calculate 7 5 (-1) (-1) "" (fun _ => false) = (7, 5, 1, 1) ∧
    match_resolution 7 5 "" (fun _ => false) = (7, 5) :=
  empty_catalog_fallback 7 5 (-1) (-1) "" "" (fun _ => false)
    (fun _ => false) (by decide) (fun _ => rfl) (fun _ => rfl) (by decide)
    (by decide)

/-- C10: for every positive source and every flag/custom configuration,
the rectangle returned by `match_resolution` has the same GCD-reduced
aspect ratio as the source: the result is either the source itself or a
candidate that passed the exact reduced-ratio equality filter. -/
theorem matcher_preserves_reduced_ratio (w h : ℕ) (hw : 0 < w) (hh : 0 < h)
    (custom_resolutions : String) (kwargs : String → Bool) :
    calculate_aspect_ratio
        (match_resolution w h custom_resolutions kwargs).1
        (match_resolution w h custom_resolutions kwargs).2 =
      calculate_aspect_ratio w h := by
  rcases hfil : (get_enabled_resolutions custom_resolutions kwargs).filter
      (fun r => calculate_aspect_ratio r.1 r.2 == calculate_aspect_ratio w h)
    with _ | ⟨m, rest⟩
  · simp only [match_resolution]
    rw [match_from_resolutions_of_no_match w h _ hfil]
  · have hm := match_from_resolutions_of_match w h
      (get_enabled_resolutions custom_resolutions kwargs) m rest hfil
    have := mem_matching_ratio_eq w h
      (get_enabled_resolutions custom_resolutions kwargs) _ hm.2.1
    simp only [match_resolution]
    exact this

theorem matcher_preserves_reduced_ratio_witness :
    calculate_aspect_ratio
        (match_resolution 1920 1080 "1280x720" (fun _ => false)).1
        (match_resolution 1920 1080 "1280x720" (fun _ => false)).2 =
      calculate_aspect_ratio 1920 1080 :=
  matcher_preserves_reduced_ratio 1920 1080 (by norm_num) (by norm_num)
    "1280x720" (fun _ => false)

end CropRes

namespace CropRes

/-! ### Properties of the binary64 model -/

theorem roundHalfEven_sub_le (x : ℚ) :
    |((roundHalfEven x : ℤ) : ℚ) - x| ≤ 1 / 2 := by
  have h0 : (0 : ℚ) ≤ x - ⌊x⌋ := sub_nonneg.mpr (Int.floor_le x)
  have h1 : x - ⌊x⌋ < 1 := by
    have := Int.lt_floor_add_one x
    linarith
  unfold roundHalfEven
  by_cases hc1 : x - ⌊x⌋ < 1 / 2
  · rw [if_pos hc1, abs_le]
    constructor <;> linarith
  · rw [if_neg hc1]
    by_cases hc2 : 1 / 2 < x - ⌊x⌋
    · rw [if_pos hc2, abs_le]
      push_cast
      constructor <;> linarith
    · rw [if_neg hc2]
      have heq : x - ⌊x⌋ = 1 / 2 := le_antisymm (not_lt.mp hc2) (not_lt.mp hc1)
      by_cases hc3 : Even ⌊x⌋
      · rw [if_pos hc3, abs_le]
        constructor <;> linarith
      · rw [if_neg hc3, abs_le]
        push_cast
        constructor <;> linarith

theorem roundHalfEven_intCast (n : ℤ) : roundHalfEven ((n : ℤ) : ℚ) = n := by
  unfold roundHalfEven
  rw [Int.floor_intCast]
  simp

theorem float64_eval (q : ℚ) (e : ℤ) (hq : q ≠ 0) (hlog : Int.log 2 q = e)
    (hclamp : (-1022 : ℤ) ≤ e)
    (hov : ((roundHalfEven (q * 2 ^ (52 - e)) : ℤ) : ℚ) * 2 ^ (e - 52) <
      2 ^ 1024) :
    float64 q =
      some (((roundHalfEven (q * 2 ^ (52 - e)) : ℤ) : ℚ) * 2 ^ (e - 52)) := by
  simp only [float64]
  rw [if_neg hq, hlog, max_eq_left hclamp, if_pos hov]

theorem float64_approx (q : ℚ) (hlo : (2 : ℚ) ^ (-13 : ℤ) ≤ q)
    (hhi : q ≤ (2 : ℚ) ^ (13 : ℤ)) :
    ∃ r, float64 q = some r ∧ |r - q| ≤ (2 : ℚ) ^ (-40 : ℤ) := by
  have hq : 0 < q := lt_of_lt_of_le (by positivity) hlo
  have hcast : ((2 : ℕ) : ℚ) = (2 : ℚ) := by norm_num
  have h1 : (2 : ℚ) ^ Int.log 2 q ≤ q := by
    have := Int.zpow_log_le_self (b := 2) (R := ℚ) (by norm_num) hq
    rwa [hcast] at this
  have h2 : q < (2 : ℚ) ^ (Int.log 2 q + 1) := by
    have := Int.lt_zpow_succ_log_self (b := 2) (R := ℚ) (by norm_num) q
    rwa [hcast] at this
  have hlo' : (-13 : ℤ) ≤ Int.log 2 q := by
    have h3 := Int.log_mono_right (b := 2)
      (show (0 : ℚ) < (2 : ℚ) ^ (-13 : ℤ) by positivity) hlo
    have h4 : Int.log 2 ((2 : ℚ) ^ (-13 : ℤ)) = -13 := by
      rw [← hcast]
      exact Int.log_zpow (by norm_num) (-13)
    rw [h4] at h3
    exact h3
  have hhi' : Int.log 2 q ≤ 13 := by
    have h3 := Int.log_mono_right (b := 2) hq hhi
    have h4 : Int.log 2 ((2 : ℚ) ^ (13 : ℤ)) = 13 := by
      rw [← hcast]
      exact Int.log_zpow (by norm_num) 13
    rw [h4] at h3
    exact h3
  set e := Int.log 2 q with he
  have hcancel : (2 : ℚ) ^ (52 - e) * (2 : ℚ) ^ (e - 52) = 1 := by
    rw [← zpow_add₀ (by norm_num : (2 : ℚ) ≠ 0)]
    norm_num
  have herr : |((roundHalfEven (q * 2 ^ (52 - e)) : ℤ) : ℚ) * 2 ^ (e - 52) - q| ≤
      (2 : ℚ) ^ (e - 53) := by
    have h4 := roundHalfEven_sub_le (q * (2 : ℚ) ^ (52 - e))
    have h5 : ((roundHalfEven (q * 2 ^ (52 - e)) : ℤ) : ℚ) * 2 ^ (e - 52) - q =
        (((roundHalfEven (q * 2 ^ (52 - e)) : ℤ) : ℚ) - q * 2 ^ (52 - e)) *
          2 ^ (e - 52) := by
      rw [sub_mul, mul_assoc, hcancel, mul_one]
    rw [h5, abs_mul, abs_of_pos (zpow_pos (by norm_num : (0 : ℚ) < 2) _)]
    calc |((roundHalfEven (q * 2 ^ (52 - e)) : ℤ) : ℚ) - q * 2 ^ (52 - e)| *
          (2 : ℚ) ^ (e - 52) ≤ 1 / 2 * (2 : ℚ) ^ (e - 52) :=
        mul_le_mul_of_nonneg_right h4
          (le_of_lt (zpow_pos (by norm_num : (0 : ℚ) < 2) _))
      _ = (2 : ℚ) ^ (e - 53) := by
        rw [show (1 : ℚ) / 2 = (2 : ℚ) ^ (-1 : ℤ) from by norm_num,
          ← zpow_add₀ (by norm_num : (2 : ℚ) ≠ 0)]
        congr 1
        ring
  have herr40 : |((roundHalfEven (q * 2 ^ (52 - e)) : ℤ) : ℚ) * 2 ^ (e - 52) - q| ≤
      (2 : ℚ) ^ (-40 : ℤ) :=
    le_trans herr (zpow_le_zpow_right₀ (by norm_num) (by omega))
  have hov : ((roundHalfEven (q * 2 ^ (52 - e)) : ℤ) : ℚ) * 2 ^ (e - 52) <
      2 ^ 1024 := by
    have ha := (abs_le.mp herr40).2
    have hb : q < (2 : ℚ) ^ (14 : ℤ) :=
      lt_of_le_of_lt hhi (zpow_lt_zpow_right₀ (by norm_num) (by norm_num))
    have hcn : (2 : ℚ) ^ (14 : ℤ) + (2 : ℚ) ^ (-40 : ℤ) < 2 ^ 1024 := by
      norm_num
    linarith
  exact ⟨((roundHalfEven (q * 2 ^ (52 - e)) : ℤ) : ℚ) * 2 ^ (e - 52),
    float64_eval q e (ne_of_gt hq) he.symm (by omega) hov, herr40⟩

end CropRes

namespace CropRes

theorem quot_in_range (a b : ℕ) (ha : 0 < a) (hb : 0 < b) (haB : a ≤ 8192)
    (hbB : b ≤ 8192) :
    (2 : ℚ) ^ (-13 : ℤ) ≤ (a : ℚ) / (b : ℚ) ∧
    (a : ℚ) / (b : ℚ) ≤ (2 : ℚ) ^ (13 : ℤ) := by
  have ha' : (1 : ℚ) ≤ (a : ℚ) := by exact_mod_cast ha
  have hb' : (1 : ℚ) ≤ (b : ℚ) := by exact_mod_cast hb
  have haB' : (a : ℚ) ≤ 8192 := by exact_mod_cast haB
  have hbB' : (b : ℚ) ≤ 8192 := by exact_mod_cast hbB
  have hbpos : (0 : ℚ) < (b : ℚ) := by linarith
  constructor
  · rw [show (2 : ℚ) ^ (-13 : ℤ) = 1 / 8192 from by norm_num,
      div_le_div_iff (by norm_num) hbpos]
    nlinarith
  · rw [show (2 : ℚ) ^ (13 : ℤ) = 8192 from by norm_num, div_le_iff hbpos]
    nlinarith

theorem quotient_gap (a b c d : ℕ) (hb : 0 < b) (hd : 0 < d)
    (hbB : b ≤ 8192) (hdB : d ≤ 8192) (hlt : b * c < a * d) :
    (c : ℚ) / (d : ℚ) + (2 : ℚ) ^ (-26 : ℤ) ≤ (a : ℚ) / (b : ℚ) := by
  have hbq : (0 : ℚ) < (b : ℚ) := by exact_mod_cast hb
  have hdq : (0 : ℚ) < (d : ℚ) := by exact_mod_cast hd
  have hbB' : (b : ℚ) ≤ 8192 := by exact_mod_cast hbB
  have hdB' : (d : ℚ) ≤ 8192 := by exact_mod_cast hdB
  have hnum : (b : ℚ) * c + 1 ≤ (a : ℚ) * d := by
    have h1 : b * c + 1 ≤ a * d := hlt
    exact_mod_cast h1
  have key : (a : ℚ) / b - (c : ℚ) / d =
      ((a : ℚ) * d - (b : ℚ) * c) / ((b : ℚ) * d) := by
    field_simp
  have h1 : (1 : ℚ) / ((b : ℚ) * d) ≤
      ((a : ℚ) * d - (b : ℚ) * c) / ((b : ℚ) * d) := by
    gcongr
    linarith
  have h2 : (2 : ℚ) ^ (-26 : ℤ) ≤ (1 : ℚ) / ((b : ℚ) * d) := by
    rw [show (2 : ℚ) ^ (-26 : ℤ) = 1 / 67108864 from by norm_num]
    apply one_div_le_one_div_of_le
    · positivity
    · nlinarith
  linarith

theorem fpDiv_guard_agree (w h rw rh : ℕ) (hw : 0 < w) (hh : 0 < h)
    (hrw : 0 < rw) (hrh : 0 < rh) (hwB : w ≤ 8192) (hhB : h ≤ 8192)
    (hrwB : rw ≤ 8192) (hrhB : rh ≤ 8192) :
    ∃ cr tr, fpDiv w h = some cr ∧ fpDiv rw rh = some tr ∧
      (tr < cr ↔ h * rw < w * rh) := by
  obtain ⟨hq1lo, hq1hi⟩ := quot_in_range w h hw hh hwB hhB
  obtain ⟨hq2lo, hq2hi⟩ := quot_in_range rw rh hrw hrh hrwB hrhB
  obtain ⟨cr, hcr, hecr⟩ := float64_approx ((w : ℚ) / h) hq1lo hq1hi
  obtain ⟨tr, htr, hetr⟩ := float64_approx ((rw : ℚ) / rh) hq2lo hq2hi
  have hnum : (2 : ℚ) ^ (-40 : ℤ) + (2 : ℚ) ^ (-40 : ℤ) < (2 : ℚ) ^ (-26 : ℤ) := by
    norm_num
  refine ⟨cr, tr, hcr, htr, ?_, ?_⟩
  · intro hlt
    by_contra hc
    rcases lt_or_eq_of_le (not_lt.mp hc) with hlt2 | heq
    · have hgap : (w : ℚ) / h + (2 : ℚ) ^ (-26 : ℤ) ≤ (rw : ℚ) / rh := by
        apply quotient_gap rw rh w h hrh hh hrhB hhB
        rw [mul_comm rh w, mul_comm rw h]
        exact hlt2
      have e1 := (abs_le.mp hecr).2
      have e2 := (abs_le.mp hetr).1
      have : cr < tr := by linarith
      exact absurd hlt (lt_asymm this)
    · have hq : (w : ℚ) / h = (rw : ℚ) / rh := by
        rw [div_eq_div_iff (Nat.cast_ne_zero.mpr hh.ne')
          (Nat.cast_ne_zero.mpr hrh.ne')]
        have hcast : ((w * rh : ℕ) : ℚ) = ((h * rw : ℕ) : ℚ) := by
          exact_mod_cast congrArg (fun n : ℕ => (n : ℚ)) heq
        push_cast at hcast
        linear_combination hcast
      rw [hq] at hcr
      have hct : cr = tr := Option.some.inj (hcr.symm.trans htr)
      rw [hct] at hlt
      exact absurd hlt (lt_irrefl tr)
  · intro hc
    have hgap : (rw : ℚ) / rh + (2 : ℚ) ^ (-26 : ℤ) ≤ (w : ℚ) / h :=
      quotient_gap w h rw rh hh hrh hhB hrhB hc
    have e1 := (abs_le.mp hecr).1
    have e2 := (abs_le.mp hetr).2
    linarith

theorem calc_dims_fp_eq_of_agree (w h rw rh : ℕ) (cr tr : ℚ)
    (hcr : fpDiv w h = some cr) (htr : fpDiv rw rh = some tr)
    (hiff : tr < cr ↔ (rw : ℚ) / (rh : ℚ) < (w : ℚ) / (h : ℚ)) :
    calculate_dimensions_for_ratio_fp w h rw rh =
      some (calculate_dimensions_for_ratio w h rw rh) := by
  simp only [calculate_dimensions_for_ratio_fp, hcr, htr,
    calculate_dimensions_for_ratio]
  exact congrArg some (if_congr hiff rfl rfl)

end CropRes

namespace CropRes

theorem log2_eq_zero_of (q : ℚ) (h1 : 1 ≤ q) (h2 : q < 2) :
    Int.log 2 q = 0 := by
  have hq : (0 : ℚ) < q := lt_of_lt_of_le one_pos h1
  have hcast : ((2 : ℕ) : ℚ) = (2 : ℚ) := by norm_num
  have ha : 0 ≤ Int.log 2 q := by
    have h3 := Int.lt_zpow_succ_log_self (b := 2) (R := ℚ) (by norm_num) q
    rw [hcast] at h3
    have h4 : (2 : ℚ) ^ (0 : ℤ) < (2 : ℚ) ^ (Int.log 2 q + 1) := by
      rw [zpow_zero]
      exact lt_of_le_of_lt h1 h3
    have h5 := (zpow_lt_zpow_iff_right₀ (by norm_num : (1 : ℚ) < 2)).mp h4
    omega
  have hb : Int.log 2 q ≤ 0 := by
    have h3 := Int.zpow_log_le_self (b := 2) (R := ℚ) (by norm_num) hq
    rw [hcast] at h3
    have h4 : (2 : ℚ) ^ Int.log 2 q < (2 : ℚ) ^ (1 : ℤ) := by
      rw [zpow_one]
      exact lt_of_le_of_lt h3 h2
    have h5 := (zpow_lt_zpow_iff_right₀ (by norm_num : (1 : ℚ) < 2)).mp h4
    omega
  omega

theorem roundHalfEven_pow_add_half :
    roundHalfEven ((2 : ℚ) ^ 52 + 1 / 2) = 2 ^ 52 := by
  have hfl : ⌊(2 : ℚ) ^ 52 + 1 / 2⌋ = 2 ^ 52 := by
    apply Int.floor_eq_iff.mpr
    constructor
    · push_cast
      norm_num
    · push_cast
      norm_num
  unfold roundHalfEven
  rw [hfl]
  have hx : (2 : ℚ) ^ 52 + 1 / 2 - ((2 ^ 52 : ℤ) : ℚ) = 1 / 2 := by
    push_cast
    ring
  have hev : Even (2 ^ 52 : ℤ) := ⟨2 ^ 51, by ring⟩
  rw [hx, if_neg (by norm_num : ¬ ((1 : ℚ) / 2 < 1 / 2)),
    if_neg (by norm_num : ¬ ((1 : ℚ) / 2 < 1 / 2)), if_pos hev]

theorem fpDiv_one_one : fpDiv 1 1 = some 1 := by
  show float64 (((1 : ℕ) : ℚ) / ((1 : ℕ) : ℚ)) = some 1
  rw [show ((1 : ℕ) : ℚ) / ((1 : ℕ) : ℚ) = 1 from by norm_num]
  have hlog : Int.log 2 (1 : ℚ) = 0 := Int.log_one_right 2
  have hm : roundHalfEven ((1 : ℚ) * 2 ^ ((52 : ℤ) - 0)) = 2 ^ 52 := by
    rw [show (1 : ℚ) * 2 ^ ((52 : ℤ) - 0) = ((2 ^ 52 : ℤ) : ℚ) from by
      push_cast
      norm_num]
    exact roundHalfEven_intCast (2 ^ 52)
  have hov : ((roundHalfEven ((1 : ℚ) * 2 ^ ((52 : ℤ) - 0)) : ℤ) : ℚ) *
      2 ^ ((0 : ℤ) - 52) < 2 ^ 1024 := by
    rw [hm]
    push_cast
    norm_num
  have h := float64_eval 1 0 one_ne_zero hlog (by norm_num) hov
  rw [hm] at h
  rw [h, show ((2 ^ 52 : ℤ) : ℚ) * 2 ^ ((0 : ℤ) - 52) = 1 from by
    push_cast
    norm_num]

theorem fpDiv_collapse : fpDiv (2 ^ 53 + 1) (2 ^ 53) = some 1 := by
  show float64 (((2 ^ 53 + 1 : ℕ) : ℚ) / ((2 ^ 53 : ℕ) : ℚ)) = some 1
  rw [show ((2 ^ 53 + 1 : ℕ) : ℚ) / ((2 ^ 53 : ℕ) : ℚ) =
      ((2 : ℚ) ^ 53 + 1) / 2 ^ 53 from by push_cast; ring_nf]
  have hq0 : ((2 : ℚ) ^ 53 + 1) / 2 ^ 53 ≠ 0 := by positivity
  have hq1 : (1 : ℚ) ≤ ((2 : ℚ) ^ 53 + 1) / 2 ^ 53 := by
    rw [le_div_iff (by positivity)]
    norm_num
  have hq2 : ((2 : ℚ) ^ 53 + 1) / 2 ^ 53 < 2 := by
    rw [div_lt_iff (by positivity)]
    norm_num
  have hlog := log2_eq_zero_of _ hq1 hq2
  have hm : roundHalfEven (((2 : ℚ) ^ 53 + 1) / 2 ^ 53 * 2 ^ ((52 : ℤ) - 0)) =
      2 ^ 52 := by
    rw [show ((2 : ℚ) ^ 53 + 1) / 2 ^ 53 * 2 ^ ((52 : ℤ) - 0) =
        (2 : ℚ) ^ 52 + 1 / 2 from by norm_num]
    exact roundHalfEven_pow_add_half
  have hov : ((roundHalfEven (((2 : ℚ) ^ 53 + 1) / 2 ^ 53 *
      2 ^ ((52 : ℤ) - 0)) : ℤ) : ℚ) * 2 ^ ((0 : ℤ) - 52) < 2 ^ 1024 := by
    rw [hm]
    push_cast
    norm_num
  have h := float64_eval (((2 : ℚ) ^ 53 + 1) / 2 ^ 53) 0 hq0 hlog
    (by norm_num) hov
  rw [hm] at h
  rw [h, show ((2 ^ 52 : ℤ) : ℚ) * 2 ^ ((0 : ℤ) - 52) = 1 from by
    push_cast
    norm_num]

end CropRes

namespace CropRes

/-- C9 counterexample: the claim asserts the corrective fallback
branches are dead code for every `w, h ≥ 1`, but the program branches on
doubles.  At `w = 2^53 + 1`, `h = 2^53`, ratio `(1, 1)` the quotient
`w / h = 1 + 2^-53` rounds (half-to-even) to exactly `1.0`, the guard
`current_r > target_r` is false, the taken else-branch computes the
tentative height `(w // 1) * 1 = 2^53 + 1 > h`, and the corrective
recomputation executes, returning `(2^53, 2^53)` — even though the exact
comparison `w / h > 1 / 1` is strict, so under the claim's reading the
else-branch tentative result should have been final and within bounds. -/
theorem cropFitter_fallback_fires_counterexample :
    fpDiv (2 ^ 53 + 1) (2 ^ 53) = some 1 ∧
    fpDiv 1 1 = some 1 ∧
    (2 ^ 53 + 1) / 1 * 1 > (2 ^ 53 : ℕ) ∧
    calculate_dimensions_for_ratio_fp (2 ^ 53 + 1) (2 ^ 53) 1 1 =
      some (2 ^ 53, 2 ^ 53, 2 ^ 53) ∧
    (1 : ℚ) / 1 < ((2 ^ 53 + 1 : ℕ) : ℚ) / ((2 ^ 53 : ℕ) : ℚ) := by
  refine ⟨fpDiv_collapse, fpDiv_one_one, by norm_num, ?_, ?_⟩
  · simp only [calculate_dimensions_for_ratio_fp, fpDiv_collapse, fpDiv_one_one]
    rw [if_neg (lt_irrefl (1 : ℚ))]
    norm_num
  · rw [lt_div_iff (by positivity)]
    push_cast
    norm_num

/-- C9 (amended): within the node's declared input bounds (each of
`w`, `h`, `rw`, `rh` between 1 and 8192) the corrective fallback
branches are dead code even under the program's double-precision guard:
the rounded comparison of `w / h` with `rw / rh` agrees with the exact
cross-multiplied comparison, the wider-source branch's tentative width
`(h / rh) * rw` never exceeds `w`, the other branch's tentative height
`(w / rw) * rh` never exceeds `h`, and the double-guard computation
returns exactly the exact-guard result.  Beyond such bounds the double
comparison can collapse a strict rational inequality and the fallback
executes (see the counterexample at `(2^53 + 1, 2^53, 1, 1)`). -/
theorem cropFitter_fallback_dead_in_bounds (w h rw rh : ℕ)
    (hw : 0 < w) (hh : 0 < h) (hrw : 0 < rw) (hrh : 0 < rh)
    (hwB : w ≤ 8192) (hhB : h ≤ 8192) (hrwB : rw ≤ 8192)
    (hrhB : rh ≤ 8192) :
    (h * rw < w * rh → h / rh * rw ≤ w) ∧
    (¬ h * rw < w * rh → w / rw * rh ≤ h) ∧
    (∃ cr tr, fpDiv w h = some cr ∧ fpDiv rw rh = some tr ∧
      (tr < cr ↔ h * rw < w * rh)) ∧
    calculate_dimensions_for_ratio_fp w h rw rh =
      some (calculate_dimensions_for_ratio w h rw rh) := by
  obtain ⟨cr, tr, hcr, htr, hiff⟩ :=
    fpDiv_guard_agree w h rw rh hw hh hrw hrh hwB hhB hrwB hrhB
  exact ⟨fun hc => le_of_lt (tentative_width_lt w h rw rh hc),
    fun hc => tentative_height_le w h rw rh hrw (not_lt.mp hc),
    ⟨cr, tr, hcr, htr, hiff⟩,
    calc_dims_fp_eq_of_agree w h rw rh cr tr hcr htr
      (hiff.trans (ratio_lt_iff w h rw rh hh hrh).symm)⟩

theorem cropFitter_fallback_dead_in_bounds_witness :
    ((1000 : ℕ) * 16 < 1920 * 9 → 1000 / 9 * 16 ≤ 1920) ∧
    (¬ (1000 : ℕ) * 16 < 1920 * 9 → 1920 / 16 * 9 ≤ 1000) ∧
    (∃ cr tr, fpDiv 1920 1000 = some cr ∧ fpDiv 16 9 = some tr ∧
      (tr < cr ↔ (1000 : ℕ) * 16 < 1920 * 9)) ∧
    calculate_dimensions_for_ratio_fp 1920 1000 16 9 =
      some (calculate_dimensions_for_ratio 1920 1000 16 9) :=
  cropFitter_fallback_dead_in_bounds 1920 1000 16 9 (by norm_num)
    (by norm_num) (by norm_num) (by norm_num) (by norm_num) (by norm_num)
    (by norm_num) (by norm_num)

end CropRes
